import Mathlib

/-!
Verification of the paginated document composition engine of the
Generador-de-Informes-Cait repository against its natural-language
specification.

The Python sources are shallowly embedded as executable Lean definitions:
`src/src/core/report_outline.py` and the layout, classification, wrapping
and assembly logic of `src/src/services/pdf_generator.py`.  Python strings
become `String`, Python lists become `List`, Python dictionaries with a
known key set become structures, `None`-able values become `Option`, and
filesystem contents become an explicit function from paths to file data.
-/

set_option maxHeartbeats 1000000

/-! ## Basic Python string helpers -/

/-- The whitespace characters recognised by Python's `str.split()` /
`str.strip()` for the ASCII range (space, tab, newline, carriage return,
vertical tab, form feed). -/
def isWsChar (c : Char) : Bool :=
  c = ' ' || c = '\t' || c = '\n' || c = '\r' || c = '\x0b' || c = '\x0c'

/-- `str.split()` on a character list: split on runs of whitespace,
discarding empty fields.  `acc` holds the current word reversed. -/
def splitWsAux : List Char → List Char → List (List Char)
  | [], acc => if acc.isEmpty then [] else [acc.reverse]
  | c :: cs, acc =>
    if isWsChar c then
      if acc.isEmpty then splitWsAux cs [] else acc.reverse :: splitWsAux cs []
    else
      splitWsAux cs (c :: acc)

/-- Python `text.split()` (split on whitespace, no empty words). -/
def pySplit (s : String) : List String :=
  (splitWsAux s.data []).map String.mk

/-- Python `text.lstrip()` on a character list. -/
def pyLStripC (l : List Char) : List Char := l.dropWhile isWsChar

/-- Python `text.strip()` on a character list. -/
def pyStripC (l : List Char) : List Char :=
  ((l.dropWhile isWsChar).reverse.dropWhile isWsChar).reverse

/-- Python `text.strip()`. -/
def pyStrip (s : String) : String := String.mk (pyStripC s.data)

/-- Python substring containment `needle in hay` on character lists. -/
def containsSub : List Char → List Char → Bool
  | hay, needle =>
    if needle.isPrefixOf hay then true
    else
      match hay with
      | [] => false
      | _ :: t => containsSub t needle

/-- Python `token in text` for strings. -/
def pyContains (hay needle : String) : Bool := containsSub hay.data needle.data

/-- Python `str.lower()` restricted to the characters this code base uses
(ASCII letters plus the Spanish accented vowels and enye). -/
def pyLowerChar (c : Char) : Char :=
  if 'A' ≤ c ∧ c ≤ 'Z' then Char.ofNat (c.toNat + 32)
  else if c = 'Á' then 'á'
  else if c = 'É' then 'é'
  else if c = 'Í' then 'í'
  else if c = 'Ó' then 'ó'
  else if c = 'Ú' then 'ú'
  else if c = 'Ñ' then 'ñ'
  else c

/-- Python `str.lower()` on strings. -/
def pyLower (s : String) : String := String.mk (s.data.map pyLowerChar)

/-! ## `src/core/report_outline.py` -/

/-- `_normalize_report_type` from `src/src/core/report_outline.py`. -/
def normalize_report_type (report_type : String) : String :=
  if report_type = "" then "espirometria"
  else
    let text := pyLower report_type
    if pyContains text "audiometr" ∧ pyContains text "espirom" then "combinado"
    else if pyContains text "audiometr" then "audiometria"
    else "espirometria"

/-- `get_content_outline` from `src/src/core/report_outline.py`. -/
def get_content_outline (report_type : String) : List String :=
  let normalized := normalize_report_type report_type
  let tests_label :=
    if normalized = "audiometria" then "AUDIOMETRÍAS"
    else if normalized = "combinado" then "AUDIOMETRÍAS Y ESPIROMETRÍAS"
    else "ESPIROMETRÍAS"
  let results_title := "CUADRO DE RESULTADOS DE LAS PRUEBAS DE " ++ tests_label ++ "."
  let protocol_title := "PROTOCOLO DE LAS PRUEBAS DE " ++ tests_label ++ "."
  let specific_section := tests_label ++ "."
  [ "DATOS DE LA EMPRESA.",
    results_title,
    "ESTADISTICA DE RESULTADOS.",
    "CONCLUSIÓN.",
    "RECOMENDACIÓN.",
    "EQUIPO TÉCNICO",
    "CERTIFICADOS DE CALIBRACIÓN.",
    specific_section,
    "LISTADOS DE AISTENCIA.",
    protocol_title ]

/-- `PDFGenerator._determine_result_dataset_keys` from
`src/src/services/pdf_generator.py`. -/
def determine_result_dataset_keys (report_type : String) : List String :=
  let normalized := pyLower report_type
  let has_audio := pyContains normalized "audiometr"
  let has_espiro := pyContains normalized "espiro"
  if has_audio ∧ has_espiro then ["audiometria", "espirometria"]
  else if has_espiro then ["espirometria"]
  else ["audiometria"]

/-! ## Result schemes and classification
(`src/src/services/pdf_generator.py`, `src/src/core/result_schemes.py`) -/

/-- One option of a `ResultScheme`: result code, display label and the
background/foreground colors used for the table highlight. -/
structure ResultOption where
  key : String
  label : String
  bg : String
  fg : String
deriving DecidableEq, Repr

/-- A static classification table for one test type. -/
structure ResultScheme where
  options : List ResultOption
deriving DecidableEq, Repr

/-- Modelled from the spec: the file `src/core/result_schemes.py` defining
`RESULT_SCHEMES` is not part of the sources; §3 and §6 of the spec describe
it as one static table per test type listing code, labels and colors, and
§4.3 together with E2E-1 fixes the codes: `normal`, `caida_unilateral`,
`caida_bilateral` for audiometry and `espiro_normal`, `restriccion_leve`,
`obstruccion_leve`, `obstruccion_restriccion_leve`, `restriccion_moderada`,
`obstruccion_moderada`, `restriccion_grave` for spirometry.  The label and
color strings are placeholders; no theorem below depends on their values. -/
def RESULT_SCHEMES : List (String × ResultScheme) :=
  [ ("audiometria",
      ⟨[ ⟨"normal", "Normal", "#C8E6C9", "#1B5E20"⟩,
         ⟨"caida_unilateral", "Caída unilateral", "#FFF9C4", "#F57F17"⟩,
         ⟨"caida_bilateral", "Caída bilateral", "#FFCDD2", "#B71C1C"⟩ ]⟩),
    ("espirometria",
      ⟨[ ⟨"espiro_normal", "Normal", "#C8E6C9", "#1B5E20"⟩,
         ⟨"restriccion_leve", "Restricción leve", "#FFF9C4", "#F57F17"⟩,
         ⟨"obstruccion_leve", "Obstrucción leve", "#FFF9C4", "#F57F17"⟩,
         ⟨"obstruccion_restriccion_leve", "Obstrucción a restricción leve",
           "#FFE0B2", "#E65100"⟩,
         ⟨"restriccion_moderada", "Restricción moderada", "#FFE0B2", "#E65100"⟩,
         ⟨"obstruccion_moderada", "Obstrucción moderada", "#FFE0B2", "#E65100"⟩,
         ⟨"restriccion_grave", "Restricción grave", "#FFCDD2", "#B71C1C"⟩ ]⟩) ]

/-- `RESULT_SCHEMES.get(dataset_key, RESULT_SCHEMES["audiometria"])`:
scheme lookup with the audiometry scheme as default. -/
def schemeFor (dataset_key : String) : ResultScheme :=
  (RESULT_SCHEMES.lookup dataset_key).getD
    ((RESULT_SCHEMES.lookup "audiometria").getD ⟨[]⟩)

/-- The option keys of a scheme (`valid_keys` in `_resolve_result_code`). -/
def schemeKeys (dataset_key : String) : List String :=
  (schemeFor dataset_key).options.map (fun o => o.key)

/-- One evaluated person as read by the generator: only the fields the
classification and styling code consults (`result_code`, `result_label`,
`result`, `results["status"]`, `test_type`), each possibly missing. -/
structure EvaluatedEntry where
  result_code : Option String := none
  result_label : Option String := none
  result : Option String := none
  results_status : Option String := none
  test_type : Option String := none
deriving DecidableEq, Repr

/-- Python truthiness of an optional string (`None` and `""` are falsy). -/
def pyTruthyStr : Option String → Bool
  | none => false
  | some s => s ≠ ""

/-- The `or`-chain `entry.get("result_label") or entry.get("result") or
(entry.get("results") or {}).get("status", "")` used by
`_resolve_result_code`; the final default is the empty string. -/
def labelSource (e : EvaluatedEntry) : String :=
  if pyTruthyStr e.result_label then e.result_label.getD ""
  else if pyTruthyStr e.result then e.result.getD ""
  else e.results_status.getD ""

/-- The accent-folding step of `_normalize_text` composed after `lower()`:
á→a, é→e, í→i, ó→o, ú→u, ñ→n. -/
def foldAccent (c : Char) : Char :=
  if c = 'á' then 'a'
  else if c = 'é' then 'e'
  else if c = 'í' then 'i'
  else if c = 'ó' then 'o'
  else if c = 'ú' then 'u'
  else if c = 'ñ' then 'n'
  else c

/-- `PDFGenerator._normalize_text`: empty for falsy input, otherwise
lower-case with accents removed. -/
def normalize_text (value : String) : String :=
  if value = "" then ""
  else String.mk (value.data.map (fun c => foldAccent (pyLowerChar c)))

/-- The ordered substring rules of `_resolve_result_code` for the
`espirometria` scheme: `(code, keyword tokens)` pairs tried in order. -/
def espiroMapping : List (String × List String) :=
  [ ("espiro_normal", ["normal"]),
    ("restriccion_leve", ["restriccion leve", "leve"]),
    ("obstruccion_leve", ["obstruccion leve"]),
    ("obstruccion_restriccion_leve",
      ["obstruccion a restriccion", "obstruccion a restriccion leve"]),
    ("restriccion_moderada", ["restriccion moderada"]),
    ("obstruccion_moderada", ["obstruccion moderada"]),
    ("restriccion_grave", ["restriccion grave", "grave"]) ]

/-- First rule of an ordered keyword mapping whose tokens match the
normalized label (the `for key, tokens in mapping` loop). -/
def firstMatching (normalized : String) :
    List (String × List String) → Option String
  | [] => none
  | (key, tokens) :: rest =>
    if tokens.any (fun t => pyContains normalized t) then some key
    else firstMatching normalized rest

/-- `PDFGenerator._resolve_result_code`. -/
def resolve_result_code (e : EvaluatedEntry) (dataset_key : String) : String :=
  let valid_keys := schemeKeys dataset_key
  let heuristic :=
    let normalized := normalize_text (labelSource e)
    if dataset_key = "espirometria" then
      (firstMatching normalized espiroMapping).getD "espiro_normal"
    else
      if pyContains normalized "caida" ∧ pyContains normalized "bilateral" then
        "caida_bilateral"
      else if pyContains normalized "caida" ∧ pyContains normalized "uni" then
        "caida_unilateral"
      else "normal"
  match e.result_code with
  | some c => if c ∈ valid_keys then c else heuristic
  | none => heuristic

/-- Python `str.upper()` restricted to this code base's characters. -/
def pyUpperChar (c : Char) : Char :=
  if 'a' ≤ c ∧ c ≤ 'z' then Char.ofNat (c.toNat - 32)
  else if c = 'á' then 'Á'
  else if c = 'é' then 'É'
  else if c = 'í' then 'Í'
  else if c = 'ó' then 'Ó'
  else if c = 'ú' then 'Ú'
  else if c = 'ñ' then 'Ñ'
  else c

/-- Python `str.upper()`. -/
def pyUpper (s : String) : String := String.mk (s.data.map pyUpperChar)

/-- The visual style of the highlighted result cell. -/
structure ResultStyle where
  label : String
  background : String
  text : String
deriving DecidableEq, Repr

/-- `PDFGenerator._result_style_for_entry`: the resolved code selects the
option of the scheme, and its colors drive the highlight. -/
def result_style_for_entry (e : EvaluatedEntry) (dataset_key : String) :
    ResultStyle :=
  let scheme := schemeFor dataset_key
  let key := resolve_result_code e dataset_key
  let option := scheme.options.find? (fun o => o.key = key)
  let label0 : Option String :=
    if pyTruthyStr e.result_label then e.result_label
    else if pyTruthyStr e.result then e.result
    else e.results_status
  let label :=
    match label0 with
    | some s =>
      if s ≠ "" then s
      else match option with
        | some o => o.label
        | none => "N/A"
    | none =>
      match option with
      | some o => o.label
      | none => "N/A"
  let background := match option with
    | some o => o.bg
    | none => "#E0E0E0"
  let text_color := match option with
    | some o => o.fg
    | none => "#1B5E20"
  ⟨pyUpper label, background, text_color⟩

/-- Dictionary update `stats[key] = 0` (if absent) and `stats[key] += 1`
from `_compute_results_stats`, on an insertion-ordered association list. -/
def bumpStat (stats : List (String × Nat)) (key : String) :
    List (String × Nat) :=
  if (stats.lookup key).isSome then
    stats.map (fun kv => if kv.1 = key then (kv.1, kv.2 + 1) else kv)
  else
    stats ++ [(key, 1)]

/-- `PDFGenerator._compute_results_stats`: one counter per scheme option,
one increment per entry at its resolved code, plus the `total` key. -/
def compute_results_stats (dataset_key : String)
    (entries : List EvaluatedEntry) : List (String × Nat) :=
  let init := (schemeFor dataset_key).options.map (fun o => (o.key, 0))
  let counted := entries.foldl
    (fun stats e => bumpStat stats (resolve_result_code e dataset_key)) init
  counted ++ [("total", (counted.map (fun kv => kv.2)).sum)]

/-! ## Text wrapping (`PDFGenerator._wrap_text`) -/

/-- The `for word in words` loop of `_wrap_text`.  `sw` stands for
`pdf_canvas.stringWidth(·, font_name, font_size)`, an opaque font metric. -/
def wrapLoop (sw : String → ℚ) (max_width : ℚ) :
    List String → List String → String → List String
  | [], lines, current_line =>
    if current_line ≠ "" then lines ++ [current_line] else lines
  | word :: words, lines, current_line =>
    let test_line := pyStrip (current_line ++ " " ++ word)
    if sw test_line ≤ max_width then
      wrapLoop sw max_width words lines test_line
    else
      if current_line ≠ "" then
        wrapLoop sw max_width words (lines ++ [current_line]) word
      else
        wrapLoop sw max_width words lines word

/-- `PDFGenerator._wrap_text`: greedy word wrapping with the `"N/A"`
sentinel for falsy input and for an empty result. -/
def wrap_text (sw : String → ℚ) (text : String) (max_width : ℚ) :
    List String :=
  if text = "" then ["N/A"]
  else
    let lines := wrapLoop sw max_width (pySplit text) [] ""
    if lines.isEmpty then ["N/A"] else lines

/-- Joining a list of words with single spaces (the spec's
"whitespace-normalized text"). -/
def joinWords : List String → String
  | [] => ""
  | [w] => w
  | w :: ws => w ++ " " ++ joinWords ws

/-! ## PDF pages, blank-page detection and assembly -/

/-- The content-stream shapes `page.get_contents()` can return: a single
stream or an array of streams (each possibly null); `none` models an
absent `/Contents` entry.  Stream data is a byte list. -/
inductive PdfContents where
  | single (data : List Nat)
  | arr (items : List (Option (List Nat)))
deriving DecidableEq, Repr

/-- One page of an external PDF as observed by the merge code: its
extracted text and its raw content stream. -/
structure PdfPage where
  text : String
  contents : Option PdfContents
deriving DecidableEq, Repr

/-- A byte kept by `data.translate(None, b" \t\r\n")` (not space, tab,
carriage return or newline). -/
def keptByte (b : Nat) : Bool := !(b = 32 || b = 9 || b = 13 || b = 10)

/-- The joined raw data of a contents value (`item.get_data()` joined over
non-null items, or the single stream's data). -/
def contentsData : PdfContents → List Nat
  | .single d => d
  | .arr items => (items.filterMap id).flatten

/-- `PDFGenerator._is_blank_pdf_page`: empty extracted text and an absent
or whitespace-only content stream. -/
def is_blank_pdf_page (p : PdfPage) : Bool :=
  if pyStrip p.text ≠ "" then false
  else
    match p.contents with
    | none => true
    | some c =>
      match c with
      | .arr [] => true
      | _ => ((contentsData c).filter keptByte).isEmpty

/-- The filesystem as seen during assembly: each path either does not
exist or holds a parsed PDF's page list. -/
def FileSystem : Type := String → Option (List PdfPage)

/-- The pages one referenced file contributes during assembly: nothing if
the path does not exist, else its non-blank pages (the
`if not os.path.exists: continue` and blank-page `continue` branches of
`_append_supporting_pdfs`). -/
def fileContribution (fsys : FileSystem) (file_path : String) :
    List PdfPage :=
  match fsys file_path with
  | none => []
  | some pages => pages.filter (fun p => !is_blank_pdf_page p)

/-- An `AttachmentCoverSection` bookkeeping record created by
`PDFGenerator.generate` for one attachment bucket. -/
structure AttachmentSection where
  files : List String
  cover_end : Nat
  cover_start : Nat
deriving DecidableEq, Repr

/-- The pages a whole section splices in: each of its files in order. -/
def sectionContribution (fsys : FileSystem) (s : AttachmentSection) :
    List PdfPage :=
  s.files.foldr (fun f acc => fileContribution fsys f ++ acc) []

/-- The `while section_index < len(ordered_sections)` loop of
`_append_supporting_pdfs`: consume every leading section whose `cover_end`
equals the current 1-based page index, splicing its files' pages. -/
def consumeSections (fsys : FileSystem) (page_idx : Nat) :
    List AttachmentSection → List PdfPage × List AttachmentSection
  | [] => ([], [])
  | s :: rest =>
    if s.cover_end = page_idx then
      let next := consumeSections fsys page_idx rest
      (sectionContribution fsys s ++ next.1, next.2)
    else ([], s :: rest)

/-- The `for page_idx, page in enumerate(reader.pages, start=1)` walk of
`_append_supporting_pdfs`: copy each base page, then splice the sections
due at that index.  Returns the output pages and the unconsumed
sections. -/
def appendWalk (fsys : FileSystem) :
    List PdfPage → Nat → List AttachmentSection →
    List PdfPage × List AttachmentSection
  | [], _, sections => ([], sections)
  | p :: ps, page_idx, sections =>
    let spliced := consumeSections fsys page_idx sections
    let rest := appendWalk fsys ps (page_idx + 1) spliced.2
    (p :: (spliced.1 ++ rest.1), rest.2)

/-- `PDFGenerator._append_supporting_pdfs` on the page level: the spliced
base walk followed by the trailing protocol PDFs (non-empty paths only,
same existence and blank-page filters). -/
def append_supporting_pdfs (fsys : FileSystem) (basePages : List PdfPage)
    (attachment_sections : List AttachmentSection)
    (trailing_pdfs : List String) : List PdfPage :=
  (appendWalk fsys basePages 1 attachment_sections).1 ++
    ((trailing_pdfs.filter (fun p => p ≠ "")).foldr
      (fun f acc => fileContribution fsys f ++ acc) [])

/-! ## The attachment phase of `PDFGenerator.generate` -/

/-- One attachment bucket as it reaches the cover-rendering code: its
resolved file list and the number of overflow pages its cover listing
needs beyond the first (determined by the page geometry). -/
structure Bucket where
  files : List String
  extra : Nat
deriving DecidableEq, Repr

/-- The per-bucket block of `PDFGenerator.generate` (lines 154–228),
applied to the buckets in source order: skip an empty bucket; otherwise
draw the cover starting at `current_page + 1`
(`_draw_attachment_cover_page` draws `1 + extra` pages and returns the
last page number drawn) and record the `AttachmentCoverSection`. -/
def attachPhaseGo : List Bucket → Nat → List AttachmentSection × Nat
  | [], current_page => ([], current_page)
  | b :: bs, current_page =>
    if b.files.isEmpty then attachPhaseGo bs current_page
    else
      let cover_start := current_page + 1
      let last_page := current_page + 1 + b.extra
      let rest := attachPhaseGo bs last_page
      (⟨b.files, last_page, cover_start⟩ :: rest.1, rest.2)

/-- The whole attachment phase: the four buckets in the fixed source
order calibration → audiograms → spirometry → attendance, starting from
the page count reached by the earlier sections. -/
def attachPhase (start_page : Nat)
    (calibration audiograms spirometry attendance : Bucket) :
    List AttachmentSection × Nat :=
  attachPhaseGo [calibration, audiograms, spirometry, attendance] start_page

/-- The splice shape asserted by the spec: each base page in order,
immediately followed by the contributions of every section whose
`cover_end` equals that page's 1-based index. -/
def spliceSpecAux (fsys : FileSystem) :
    List PdfPage → Nat → List AttachmentSection → List PdfPage
  | [], _, _ => []
  | p :: ps, page_idx, sections =>
    p :: (((sections.filter (fun s => s.cover_end = page_idx)).map
            (sectionContribution fsys)).flatten ++
          spliceSpecAux fsys ps (page_idx + 1) sections)

/-- Top-level splice shape starting at page 1. -/
def spliceSpec (fsys : FileSystem) (basePages : List PdfPage)
    (sections : List AttachmentSection) : List PdfPage :=
  spliceSpecAux fsys basePages 1 sections

/-! ## Calibration file resolution (`_resolve_calibration_files`) -/

/-- An element of `calibration_files` / `calibration_certificates`: a
plain path string or a record carrying `file` / `file_path` /
`attachment` keys. -/
inductive CalEntry where
  | str (s : String)
  | dict (file file_path attachment : Option String)
deriving DecidableEq, Repr

/-- The `file_path = entry.get("file") or entry.get("file_path") or
entry.get("attachment")` chain. -/
def calEntryPath : CalEntry → Option String
  | .str s => some s
  | .dict f fp att =>
    if pyTruthyStr f then f
    else if pyTruthyStr fp then fp
    else att

/-- `PDFGenerator._resolve_calibration_files`: concatenate both raw
sources, keep entries with a truthy path whose stripped form is non-empty
and exists on disk, deduplicating while preserving order. -/
def resolve_calibration_files (fsys : FileSystem)
    (calibration_files calibration_certificates : List CalEntry) :
    List String :=
  let candidates := calibration_files ++ calibration_certificates
  candidates.foldl
    (fun files entry =>
      match calEntryPath entry with
      | none => files
      | some fp =>
        if fp = "" then files
        else
          let normalized := pyStrip fp
          if normalized ≠ "" ∧ (fsys normalized).isSome ∧ normalized ∉ files
          then files ++ [normalized]
          else files)
    []

/-! ## Top-level control flow of `PDFGenerator.generate`

The exception structure of `generate` (try / except / finally, with the
inner merge fallback) is modelled as a state machine over the filesystem
facts the claim is about: whether the temporary pre-merge PDF exists and
what, if anything, sits at the output path.  Primitive filesystem
operations (guarded `os.remove`, `shutil.move`, the final write) are
modelled as atomic; failures are injected at each fallible phase
(directory creation, temp-file creation, the whole rendering phase, the
merge, the fallback move). -/

/-- What the named output path holds after `generate` returns. -/
inductive OutputContent where
  /-- The fully composed document (base pages plus spliced attachments). -/
  | merged
  /-- The un-merged base document, shipped by the merge fallback or by the
  no-attachment move; with no attachments to splice this is the complete
  document. -/
  | basedoc
deriving DecidableEq, Repr

/-- The observable result of a `generate` call. -/
inductive GenResult where
  | ok (success : Bool)
  /-- An exception escaped `generate` (never happens, proven below). -/
  | raised
deriving DecidableEq, Repr

/-- Filesystem state relevant to claim C2. -/
structure GenState where
  tempExists : Bool
  output : Option OutputContent
deriving DecidableEq, Repr

/-- Result and final state of one `generate` call. -/
structure GenOutcome where
  result : GenResult
  final : GenState
deriving DecidableEq, Repr

/-- `PDFGenerator.generate` control flow.  `mkOk`: `os.makedirs` and the
`NamedTemporaryFile` creation succeed; `renderOk`: the whole canvas
rendering phase up to `pdf_canvas.save()` (and protocol rendering)
succeeds; `hasExtras`: `attachment_sections or protocol_pdf` is truthy;
`mergeOk`: `_append_supporting_pdfs` succeeds (it writes the merged
output and removes the base temp file); `moveOk`: `shutil.move` of the
temp file onto the output path succeeds.  The `finally` block removes the
temp file whenever its path is still set and the file exists. -/
def generate_flow (mkOk renderOk hasExtras mergeOk moveOk : Bool) :
    GenOutcome :=
  if !mkOk then
    ⟨.ok false, ⟨false, none⟩⟩
  else if !renderOk then
    ⟨.ok false, ⟨false, none⟩⟩
  else if hasExtras then
    if mergeOk then
      ⟨.ok true, ⟨false, some .merged⟩⟩
    else if moveOk then
      ⟨.ok true, ⟨false, some .basedoc⟩⟩
    else
      ⟨.ok false, ⟨false, none⟩⟩
  else
    if moveOk then
      ⟨.ok true, ⟨false, some .basedoc⟩⟩
    else
      ⟨.ok false, ⟨false, none⟩⟩

/-! ## Helper definitions used by the theorem statements -/

/-- A word produced by `str.split()`: non-empty and free of whitespace. -/
def goodWord (w : String) : Prop :=
  w.data ≠ [] ∧ ∀ c ∈ w.data, isWsChar c = false

/-- The words of a list of lines, in order. -/
def wordsConcat (lines : List String) : List String :=
  lines.foldr (fun l acc => pySplit l ++ acc) []

/-- A concrete font metric (a monospace font whose glyphs all have width
one) used to exhibit behaviour on small inputs. -/
def swLen : String → ℚ := fun s => (s.length : ℚ)

/-- The body of `_result_style_for_entry` with the resolved code as an
explicit argument: spells out that the style is a function of the entry's
label fields and the single resolved code. -/
def style_of_code (e : EvaluatedEntry) (dataset_key : String)
    (key : String) : ResultStyle :=
  let scheme := schemeFor dataset_key
  let option := scheme.options.find? (fun o => o.key = key)
  let label0 : Option String :=
    if pyTruthyStr e.result_label then e.result_label
    else if pyTruthyStr e.result then e.result
    else e.results_status
  let label :=
    match label0 with
    | some s =>
      if s ≠ "" then s
      else match option with
        | some o => o.label
        | none => "N/A"
    | none =>
      match option with
      | some o => o.label
      | none => "N/A"
  let background := match option with
    | some o => o.bg
    | none => "#E0E0E0"
  let text_color := match option with
    | some o => o.fg
    | none => "#1B5E20"
  ⟨pyUpper label, background, text_color⟩

/-- The parsed pages of a path, empty when the file does not exist. -/
def pagesOf (fsys : FileSystem) (file_path : String) : List PdfPage :=
  (fsys file_path).getD []

/-- The raw joined content-stream bytes of a page ([] when absent). -/
def pageRawData (p : PdfPage) : List Nat :=
  match p.contents with
  | none => []
  | some c => contentsData c

/-- Concrete filesystem for the calibration-bucket scenario: `a.pdf` and
`b.pdf` exist (one non-blank page each), `missing.pdf` does not. -/
def fsTwoOfThree : FileSystem := fun p =>
  if p = "a.pdf" then some [⟨"contenido A", none⟩]
  else if p = "b.pdf" then some [⟨"contenido B", none⟩]
  else none

/-! ## Theorems -/

/-- C10: for an empty report-type string, `get_content_outline` builds the
table-of-contents labels with the ESPIROMETRÍAS variant (the empty type is
normalized to `espirometria`), while `_determine_result_dataset_keys`
routes the results sections to the `audiometria` dataset, so the outline
label and the rendered results dataset disagree on this edge case. -/
theorem empty_type_outline_dataset_disagree :
    normalize_report_type "" = "espirometria" ∧
    get_content_outline "" =
      [ "DATOS DE LA EMPRESA.",
        "CUADRO DE RESULTADOS DE LAS PRUEBAS DE ESPIROMETRÍAS.",
        "ESTADISTICA DE RESULTADOS.",
        "CONCLUSIÓN.",
        "RECOMENDACIÓN.",
        "EQUIPO TÉCNICO",
        "CERTIFICADOS DE CALIBRACIÓN.",
        "ESPIROMETRÍAS.",
        "LISTADOS DE AISTENCIA.",
        "PROTOCOLO DE LAS PRUEBAS DE ESPIROMETRÍAS." ] ∧
    determine_result_dataset_keys "" = ["audiometria"] := by
  refine ⟨by decide, by decide, by decide⟩

/-- C7: for every report type the ninth outline item produced by
`get_content_outline` is the misspelled string "LISTADOS DE AISTENCIA.",
never the spec's "LISTADOS DE ASISTENCIA." (the sibling cover-page title
in `pdf_generator.py` spells ASISTENCIA correctly, so the outline entry is
a slip in the code). -/
theorem outline_item9_misspelled (report_type : String) :
    (get_content_outline report_type)[8]? = some "LISTADOS DE AISTENCIA." ∧
    (get_content_outline report_type)[8]? ≠ some "LISTADOS DE ASISTENCIA." := by
  constructor
  · rfl
  · intro h
    rw [show (get_content_outline report_type)[8]? =
        some "LISTADOS DE AISTENCIA." from rfl] at h
    simp at h

/-- C2: for every failure pattern of the fallible phases, `generate`
terminates with a boolean (the top-level `except` means no exception
escapes), and whenever it returns `False` the `finally` block has removed
the temporary pre-merge PDF and nothing was written to the output path
(the model treats each primitive filesystem operation as atomic and
injects failures at the phase boundaries of the source). -/
theorem generate_bool_and_cleanup
    (mkOk renderOk hasExtras mergeOk moveOk : Bool) :
    (generate_flow mkOk renderOk hasExtras mergeOk moveOk).result ≠
      GenResult.raised ∧
    ((generate_flow mkOk renderOk hasExtras mergeOk moveOk).result =
        GenResult.ok false →
      (generate_flow mkOk renderOk hasExtras mergeOk moveOk).final.tempExists
          = false ∧
      (generate_flow mkOk renderOk hasExtras mergeOk moveOk).final.output
          = none) := by
  revert mkOk renderOk hasExtras mergeOk moveOk
  decide

/-- Witness for C2: with a failing render phase, `generate` returns
`False`, leaves no temporary file behind and writes nothing to the output
path. -/
theorem generate_bool_and_cleanup_witness :
    (generate_flow true false true true true).result = GenResult.ok false ∧
    (generate_flow true false true true true).final.tempExists = false ∧
    (generate_flow true false true true true).final.output = none :=
  ⟨by decide,
   ((generate_bool_and_cleanup true false true true true).2 (by decide)).1,
   ((generate_bool_and_cleanup true false true true true).2 (by decide)).2⟩

/-- C5 is false as stated: with a monospace metric, wrapping the single
word "abcd" at maximum width 2 returns the line "abcd", whose rendered
width 4 exceeds the maximum (a single word wider than the limit becomes a
line on its own). -/
theorem wrap_text_width_counterexample :
    wrap_text swLen "abcd" 2 = ["abcd"] ∧ ¬ swLen "abcd" ≤ 2 := by
  refine ⟨by decide, by decide⟩

/-- C8 is false as stated: `_resolve_calibration_files` already drops the
non-existent path, so with 2 existing files and 1 missing path the cover
page's file list holds only the 2 existing filenames, not all 3. -/
theorem calibration_cover_lists_counterexample :
    resolve_calibration_files fsTwoOfThree
        [CalEntry.str "a.pdf", CalEntry.str "b.pdf",
         CalEntry.str "missing.pdf"] [] = ["a.pdf", "b.pdf"] ∧
    (resolve_calibration_files fsTwoOfThree
        [CalEntry.str "a.pdf", CalEntry.str "b.pdf",
         CalEntry.str "missing.pdf"] []).length ≠ 3 ∧
    "missing.pdf" ∉ resolve_calibration_files fsTwoOfThree
        [CalEntry.str "a.pdf", CalEntry.str "b.pdf",
         CalEntry.str "missing.pdf"] [] := by
  refine ⟨by decide, by decide, by decide⟩

/-- C9 is false as stated: an espirometria entry with no valid result
code whose normalized label "normal obstruccion leve" contains the
substring "obstruccion leve" resolves to `espiro_normal` (the first
rule's token "normal" matches before the "leve" rule), not to
`restriccion_leve`. -/
theorem resolve_obstruccion_leve_counterexample :
    (EvaluatedEntry.mk none (some "normal obstruccion leve") none none
        none).result_code = none ∧
    pyContains
      (normalize_text (labelSource
        (EvaluatedEntry.mk none (some "normal obstruccion leve") none none
          none)))
      "obstruccion leve" = true ∧
    resolve_result_code
      (EvaluatedEntry.mk none (some "normal obstruccion leve") none none
        none) "espirometria" = "espiro_normal" ∧
    resolve_result_code
      (EvaluatedEntry.mk none (some "normal obstruccion leve") none none
        none) "espirometria" ≠ "restriccion_leve" := by
  refine ⟨by decide, by decide, by decide, by decide⟩

/-- `containsSub` decides list infix (Python's substring test). -/
lemma containsSub_iff_substring (needle : List Char) :
    ∀ hay : List Char, containsSub hay needle = true ↔ needle <:+: hay := by
  intro hay
  induction hay with
  | nil =>
    rw [containsSub]
    constructor
    · intro h
      by_cases hp : needle.isPrefixOf ([] : List Char)
      · exact (List.isPrefixOf_iff_prefix.mp hp).isInfix
      · simp [hp] at h
    · intro h
      have : needle = [] := List.eq_nil_of_infix_nil h
      subst this
      simp [List.isPrefixOf]
  | cons a t ih =>
    rw [containsSub]
    constructor
    · intro h
      by_cases hp : needle.isPrefixOf (a :: t)
      · exact (List.isPrefixOf_iff_prefix.mp hp).isInfix
      · simp only [hp, if_false] at h
        exact List.infix_cons (ih.mp h)
    · intro h
      by_cases hp : needle.isPrefixOf (a :: t)
      · simp [hp]
      · rcases List.infix_cons_iff.mp h with hpre | hinf
        · exact absurd (List.isPrefixOf_iff_prefix.mpr hpre) hp
        · simp [hp, ih.mpr hinf]

/-- Substring containment is transitive along an infix needle. -/
lemma pyContains_of_substring {s t u : String}
    (h : pyContains s t = true) (hi : u.data <:+: t.data) :
    pyContains s u = true := by
  unfold pyContains at *
  exact (containsSub_iff_substring u.data s.data).mpr
    (hi.trans ((containsSub_iff_substring t.data s.data).mp h))


/-- The espirometria keyword heuristic can never produce the code
`obstruccion_leve`: any label containing "obstruccion leve" also contains
"leve", so the earlier `restriccion_leve` rule fires first. -/
lemma espiro_heuristic_ne_obstruccion_leve (n : String) :
    (firstMatching n espiroMapping).getD "espiro_normal" ≠
      "obstruccion_leve" := by
  simp only [espiroMapping, firstMatching, List.any_cons, List.any_nil,
    Bool.or_false]
  by_cases h1 : pyContains n "normal" = true
  · simp [h1]
  · simp only [h1, if_false]
    by_cases h2 : (pyContains n "restriccion leve" || pyContains n "leve")
        = true
    · simp [h2]
    · have hleve : pyContains n "leve" = false :=
        (Bool.or_eq_false_iff.mp (Bool.eq_false_iff.mpr h2)).2
      have h3 : pyContains n "obstruccion leve" = false := by
        by_contra hcon
        have htrue : pyContains n "obstruccion leve" = true :=
          eq_true_of_ne_false hcon
        have hl : pyContains n "leve" = true :=
          pyContains_of_substring htrue (by decide)
        rw [hl] at hleve
        cases hleve
      simp only [h2, if_false, h3, if_false]
      by_cases h4 : (pyContains n "obstruccion a restriccion" ||
          pyContains n "obstruccion a restriccion leve") = true
      · simp [h4]
      · simp only [h4, if_false]
        by_cases h5 : pyContains n "restriccion moderada" = true
        · simp [h5]
        · simp only [h5, if_false]
          by_cases h6 : pyContains n "obstruccion moderada" = true
          · simp [h6]
          · simp only [h6, if_false]
            by_cases h7 : (pyContains n "restriccion grave" ||
                pyContains n "grave") = true
            · simp [h7]
            · simp [h7]

/-- C9, amended: an espirometria entry with no valid result code whose
normalized label contains "obstruccion leve" but not the token "normal"
resolves to `restriccion_leve` (the bare "leve" token of the earlier rule
matches first), and the code `obstruccion_leve` is produced only for an
entry that already carries exactly that `result_code`. -/
theorem resolve_obstruccion_leve_amended (e : EvaluatedEntry)
    (hcode : ∀ c, e.result_code = some c → c ∉ schemeKeys "espirometria")
    (hcontains : pyContains (normalize_text (labelSource e))
      "obstruccion leve" = true)
    (hnormal : pyContains (normalize_text (labelSource e)) "normal"
      = false) :
    resolve_result_code e "espirometria" = "restriccion_leve" ∧
    ∀ e' : EvaluatedEntry,
      resolve_result_code e' "espirometria" = "obstruccion_leve" →
      e'.result_code = some "obstruccion_leve" := by
  have hleve : pyContains (normalize_text (labelSource e)) "leve" = true :=
    pyContains_of_substring hcontains (by decide)
  have hheur : (firstMatching (normalize_text (labelSource e))
      espiroMapping).getD "espiro_normal" = "restriccion_leve" := by
    simp only [espiroMapping, firstMatching, List.any_cons, List.any_nil,
      Bool.or_false]
    rw [if_neg (by simp [hnormal]), if_pos (by simp [hleve])]
    rfl
  constructor
  · unfold resolve_result_code
    cases hc : e.result_code with
    | none => simpa using hheur
    | some c =>
      have hnv : c ∉ schemeKeys "espirometria" := hcode c hc
      simpa [hnv] using hheur
  · intro e' h
    unfold resolve_result_code at h
    cases hc : e'.result_code with
    | none =>
      rw [hc] at h
      simp only [if_pos rfl] at h
      exact absurd h (espiro_heuristic_ne_obstruccion_leve _)
    | some c =>
      rw [hc] at h
      by_cases hv : c ∈ schemeKeys "espirometria"
      · simp only [hv, if_true] at h
        exact congrArg some h
      · simp only [hv, if_false] at h
        exact absurd h (espiro_heuristic_ne_obstruccion_leve _)

/-- Witness for the amended C9: the entry with free-text label
"obstruccion leve" and no result code is classified `restriccion_leve`. -/
theorem resolve_obstruccion_leve_amended_witness :
    resolve_result_code
      (EvaluatedEntry.mk none (some "obstruccion leve") none none none)
      "espirometria" = "restriccion_leve" ∧
    ∀ e' : EvaluatedEntry,
      resolve_result_code e' "espirometria" = "obstruccion_leve" →
      e'.result_code = some "obstruccion_leve" :=
  resolve_obstruccion_leve_amended
    (EvaluatedEntry.mk none (some "obstruccion leve") none none none)
    (by intro c hcon; cases hcon) (by decide) (by decide)

/-- C8, amended: for a calibration bucket referencing two existing PDF
files and one non-existent path, `_resolve_calibration_files` filters the
missing path out before the cover page is drawn, so the cover page lists
exactly the 2 existing filenames, and Assembly splices in only those two
files' pages; no error is raised (the resolution and splice are total). -/
theorem calibration_cover_amended (fsys : FileSystem) (a b m : String)
    (ha : (fsys a).isSome) (hb : (fsys b).isSome) (hm : fsys m = none)
    (hsa : pyStrip a = a) (hsb : pyStrip b = b) (hsm : pyStrip m = m)
    (hna : a ≠ "") (hnb : b ≠ "") (hnm : m ≠ "") (hab : a ≠ b) :
    resolve_calibration_files fsys
        [CalEntry.str a, CalEntry.str b, CalEntry.str m] [] = [a, b] ∧
    ∀ ce cs : Nat,
      sectionContribution fsys
        ⟨resolve_calibration_files fsys
          [CalEntry.str a, CalEntry.str b, CalEntry.str m] [], ce, cs⟩ =
      fileContribution fsys a ++ fileContribution fsys b := by
  have hba : b ≠ a := hab.symm
  have hres : resolve_calibration_files fsys
      [CalEntry.str a, CalEntry.str b, CalEntry.str m] [] = [a, b] := by
    simp [resolve_calibration_files, calEntryPath, hsa, hsb, hsm,
      hna, hnb, hnm, ha, hb, hm, hba]
  refine ⟨hres, ?_⟩
  intro ce cs
  rw [hres]
  simp [sectionContribution]

/-- Witness for the amended C8 on the concrete two-of-three filesystem. -/
theorem calibration_cover_amended_witness :
    resolve_calibration_files fsTwoOfThree
        [CalEntry.str "a.pdf", CalEntry.str "b.pdf",
         CalEntry.str "missing.pdf"] [] = ["a.pdf", "b.pdf"] ∧
    ∀ ce cs : Nat,
      sectionContribution fsTwoOfThree
        ⟨resolve_calibration_files fsTwoOfThree
          [CalEntry.str "a.pdf", CalEntry.str "b.pdf",
           CalEntry.str "missing.pdf"] [], ce, cs⟩ =
      fileContribution fsTwoOfThree "a.pdf" ++
        fileContribution fsTwoOfThree "b.pdf" :=
  calibration_cover_amended fsTwoOfThree "a.pdf" "b.pdf" "missing.pdf"
    (by decide) (by decide) (by decide) (by decide) (by decide) (by decide)
    (by decide) (by decide) (by decide) (by decide)

/-- A code produced by `firstMatching` is one of the mapping's codes. -/
lemma firstMatching_mem (n : String) :
    ∀ (l : List (String × List String)) (k : String),
      firstMatching n l = some k → k ∈ l.map Prod.fst := by
  intro l
  induction l with
  | nil => intro k h; cases h
  | cons p rest ih =>
    intro k h
    obtain ⟨key, tokens⟩ := p
    rw [firstMatching] at h
    by_cases ha : tokens.any (fun t => pyContains n t) = true
    · rw [if_pos ha] at h
      cases h
      exact List.mem_cons_self _ _
    · rw [if_neg ha] at h
      exact List.mem_cons_of_mem _ (ih k h)

/-- The code resolved by `_resolve_result_code` is always a valid option
key of the requested scheme. -/
lemma resolve_result_code_mem (e : EvaluatedEntry) (dk : String)
    (hdk : dk = "audiometria" ∨ dk = "espirometria") :
    resolve_result_code e dk ∈ schemeKeys dk := by
  have hheur :
      (if dk = "espirometria" then
        (firstMatching (normalize_text (labelSource e)) espiroMapping).getD
          "espiro_normal"
      else
        if pyContains (normalize_text (labelSource e)) "caida" ∧
            pyContains (normalize_text (labelSource e)) "bilateral" then
          "caida_bilateral"
        else if pyContains (normalize_text (labelSource e)) "caida" ∧
            pyContains (normalize_text (labelSource e)) "uni" then
          "caida_unilateral"
        else "normal") ∈ schemeKeys dk := by
    rcases hdk with h | h <;> subst h
    · simp only [if_neg (by decide : ¬ ("audiometria" = "espirometria"))]
      split_ifs <;> decide
    · cases hfm : firstMatching (normalize_text (labelSource e))
          espiroMapping with
      | none =>
        rw [if_pos rfl]
        decide
      | some k =>
        have hk := firstMatching_mem _ _ _ hfm
        have hsub : ∀ x ∈ espiroMapping.map Prod.fst,
            x ∈ schemeKeys "espirometria" := by decide
        rw [if_pos rfl]
        simpa using hsub k hk
  unfold resolve_result_code
  cases hc : e.result_code with
  | none => exact hheur
  | some c =>
    by_cases hv : c ∈ schemeKeys dk
    · simp only [hv, if_true]
    · simp only [hv, if_false]
      exact hheur


/-- Association-list lookup at the head key. -/
lemma lookup_cons_eq (k : String) (v : Nat) (rest : List (String × Nat)) :
    List.lookup k ((k, v) :: rest) = some v := by
  rw [List.lookup_cons, beq_self_eq_true]

/-- Association-list lookup skips a head with a different key. -/
lemma lookup_cons_ne {k k' : String} (h : ¬ k = k') (v : Nat)
    (rest : List (String × Nat)) :
    List.lookup k ((k', v) :: rest) = List.lookup k rest := by
  rw [List.lookup_cons]
  rw [show (k == k') = false from beq_eq_false_iff_ne.mpr h]

/-- Value-update form of the `stats[key] += 1` map. -/
lemma lookup_map_bump (key k : String) :
    ∀ stats : List (String × Nat),
      (stats.map (fun kv => if kv.1 = key then (kv.1, kv.2 + 1) else kv)).lookup
          k =
        (stats.lookup k).map (fun v => if k = key then v + 1 else v) := by
  intro stats
  induction stats with
  | nil => rfl
  | cons p rest ih =>
    obtain ⟨k', v⟩ := p
    by_cases hk' : k' = key
    · rw [List.map_cons, if_pos hk']
      by_cases hkk : k = k'
      · subst hkk
        rw [lookup_cons_eq, lookup_cons_eq]
        simp [hk']
      · rw [lookup_cons_ne hkk, lookup_cons_ne hkk]
        exact ih
    · rw [List.map_cons, if_neg hk']
      by_cases hkk : k = k'
      · subst hkk
        rw [lookup_cons_eq, lookup_cons_eq]
        simp [hk']
      · rw [lookup_cons_ne hkk, lookup_cons_ne hkk]
        exact ih

/-- Lookup ignores a suffix when the key is found on the left. -/
lemma lookup_append_left (k : String) :
    ∀ l1 l2 : List (String × Nat),
      (l1.lookup k).isSome → (l1 ++ l2).lookup k = l1.lookup k := by
  intro l1
  induction l1 with
  | nil => intro l2 h; cases h
  | cons p rest ih =>
    intro l2 h
    obtain ⟨k', v⟩ := p
    by_cases hkk : k = k'
    · subst hkk
      rw [List.cons_append, lookup_cons_eq, lookup_cons_eq]
    · rw [List.cons_append, lookup_cons_ne hkk, lookup_cons_ne hkk]
      rw [lookup_cons_ne hkk] at h
      exact ih l2 h

/-- One `bumpStat` step: presence is preserved and the tracked counter
grows by one exactly at the bumped key. -/
lemma lookup_bumpStat (stats : List (String × Nat)) (key k : String)
    (hk : (stats.lookup k).isSome) :
    ((bumpStat stats key).lookup k).isSome ∧
    ((bumpStat stats key).lookup k).getD 0 =
      (stats.lookup k).getD 0 + (if k = key then 1 else 0) := by
  unfold bumpStat
  by_cases hkey : (stats.lookup key).isSome
  · rw [if_pos hkey, lookup_map_bump]
    obtain ⟨v, hv⟩ := Option.isSome_iff_exists.mp hk
    rw [hv]
    by_cases hkk : k = key <;> simp [hkk]
  · rw [if_neg hkey]
    have hne : ¬ k = key := by
      intro h
      subst h
      exact hkey hk
    rw [lookup_append_left k stats [(key, 1)] hk]
    simp [hk, hne]

/-- Folding `bumpStat` over the entries adds exactly the number of
entries resolving to `k` to `k`'s counter. -/
lemma foldl_bumpStat (dk k : String) :
    ∀ (entries : List EvaluatedEntry) (stats : List (String × Nat)),
      (stats.lookup k).isSome →
      (((entries.foldl
          (fun st e => bumpStat st (resolve_result_code e dk)) stats).lookup
            k).isSome ∧
       ((entries.foldl
          (fun st e => bumpStat st (resolve_result_code e dk)) stats).lookup
            k).getD 0 =
        (stats.lookup k).getD 0 +
          entries.countP (fun e => resolve_result_code e dk == k)) := by
  intro entries
  induction entries with
  | nil => intro stats h; exact ⟨h, by simp⟩
  | cons e es ih =>
    intro stats h
    have hstep := lookup_bumpStat stats (resolve_result_code e dk) k h
    have hrec := ih (bumpStat stats (resolve_result_code e dk)) hstep.1
    refine ⟨hrec.1, ?_⟩
    simp only [List.foldl_cons]
    rw [hrec.2, hstep.2, List.countP_cons]
    by_cases hk : resolve_result_code e dk = k
    · rw [if_pos hk.symm, if_pos (beq_iff_eq.mpr hk)]
      omega
    · rw [if_neg (fun hc => hk hc.symm),
        if_neg (fun hc => hk (beq_iff_eq.mp hc))]
      omega

/-- The zero-initialised counters hold every scheme option key. -/
lemma lookup_init_zero (k : String) :
    ∀ opts : List ResultOption,
      k ∈ opts.map (fun o => o.key) →
      (opts.map (fun o => (o.key, 0))).lookup k = some 0 := by
  intro opts
  induction opts with
  | nil => intro h; cases h
  | cons o rest ih =>
    intro h
    rcases List.mem_cons.mp h with h0 | h0
    · subst h0
      rw [List.map_cons, lookup_cons_eq]
    · by_cases hkk : k = o.key
      · subst hkk
        rw [List.map_cons, lookup_cons_eq]
      · rw [List.map_cons, lookup_cons_ne hkk]
        exact ih h0

/-- C3: the code resolved by `_resolve_result_code` is always a valid
option key of the dataset's `ResultScheme`; `_result_style_for_entry`
derives the highlight colors from exactly that resolved code; and
`_compute_results_stats` counts each entry under exactly that resolved
code, so counts and highlighting can never disagree. -/
theorem classification_consistency (dk : String)
    (hdk : dk = "audiometria" ∨ dk = "espirometria") :
    (∀ e : EvaluatedEntry, resolve_result_code e dk ∈ schemeKeys dk) ∧
    (∀ e : EvaluatedEntry,
      result_style_for_entry e dk =
        style_of_code e dk (resolve_result_code e dk)) ∧
    (∀ (entries : List EvaluatedEntry) (k : String), k ∈ schemeKeys dk →
      (compute_results_stats dk entries).lookup k =
        some (entries.countP (fun e => resolve_result_code e dk == k))) := by
  refine ⟨fun e => resolve_result_code_mem e dk hdk, fun e => rfl, ?_⟩
  intro entries k hk
  have hinit : ((schemeFor dk).options.map
      (fun o => (o.key, 0))).lookup k = some 0 :=
    lookup_init_zero k (schemeFor dk).options hk
  have hfold := foldl_bumpStat dk k entries
    ((schemeFor dk).options.map (fun o => (o.key, 0)))
    (by rw [hinit]; rfl)
  unfold compute_results_stats
  rw [lookup_append_left k _ _ hfold.1]
  obtain ⟨v, hv⟩ := Option.isSome_iff_exists.mp hfold.1
  rw [hv]
  have := hfold.2
  rw [hv, hinit] at this
  simp only [Option.getD_some] at this
  rw [this]
  simp

/-- Witness for C3: a concrete espirometria entry resolves to a valid
key, its style is the style of that key, and the statistics count it
under that key. -/
theorem classification_consistency_witness :
    resolve_result_code
        (EvaluatedEntry.mk none (some "Restricción leve") none none none)
        "espirometria" ∈ schemeKeys "espirometria" ∧
    result_style_for_entry
        (EvaluatedEntry.mk none (some "Restricción leve") none none none)
        "espirometria" =
      style_of_code
        (EvaluatedEntry.mk none (some "Restricción leve") none none none)
        "espirometria"
        (resolve_result_code
          (EvaluatedEntry.mk none (some "Restricción leve") none none none)
          "espirometria") ∧
    (compute_results_stats "espirometria"
        [EvaluatedEntry.mk none (some "Restricción leve") none none
          none]).lookup "restriccion_leve" =
      some ([EvaluatedEntry.mk none (some "Restricción leve") none none
          none].countP
        (fun e => resolve_result_code e "espirometria" ==
          "restriccion_leve")) :=
  ⟨(classification_consistency "espirometria" (Or.inr rfl)).1 _,
   (classification_consistency "espirometria" (Or.inr rfl)).2.1 _,
   (classification_consistency "espirometria" (Or.inr rfl)).2.2 _ _
     (by decide)⟩

/-- Every word emitted by `splitWsAux` is non-empty and whitespace-free
(provided the accumulator is). -/
lemma splitWsAux_good :
    ∀ l acc : List Char, (∀ c ∈ acc, isWsChar c = false) →
      ∀ w ∈ splitWsAux l acc, w ≠ [] ∧ ∀ c ∈ w, isWsChar c = false := by
  intro l
  induction l with
  | nil =>
    intro acc hacc w hw
    rw [splitWsAux] at hw
    by_cases h : acc.isEmpty
    · rw [if_pos h] at hw
      cases hw
    · rw [if_neg h] at hw
      rcases List.mem_singleton.mp hw with rfl
      refine ⟨?_, ?_⟩
      · intro hrev
        rw [List.reverse_eq_nil_iff] at hrev
        rw [hrev] at h
        exact h rfl
      · intro c hc
        exact hacc c (List.mem_reverse.mp hc)
  | cons c cs ih =>
    intro acc hacc w hw
    rw [splitWsAux] at hw
    by_cases hws : isWsChar c = true
    · rw [if_pos hws] at hw
      by_cases hemp : acc.isEmpty
      · rw [if_pos hemp] at hw
        exact ih [] (by intro x hx; cases hx) w hw
      · rw [if_neg hemp] at hw
        rcases List.mem_cons.mp hw with rfl | hw'
        · refine ⟨?_, ?_⟩
          · intro hrev
            rw [List.reverse_eq_nil_iff] at hrev
            rw [hrev] at hemp
            exact hemp rfl
          · intro x hx
            exact hacc x (List.mem_reverse.mp hx)
        · exact ih [] (by intro x hx; cases hx) w hw'
    · rw [if_neg hws] at hw
      refine ih (c :: acc) ?_ w hw
      intro d hd
      rcases List.mem_cons.mp hd with rfl | hd'
      · exact Bool.eq_false_iff.mpr hws
      · exact hacc d hd'

/-- Every word of `pySplit` is a good word. -/
lemma pySplit_good (s : String) : ∀ w ∈ pySplit s, goodWord w := by
  intro w hw
  unfold pySplit at hw
  rcases List.mem_map.mp hw with ⟨l, hl, rfl⟩
  exact splitWsAux_good s.data [] (by intro x hx; cases hx) l hl

/-- `splitWsAux` scans a whitespace-free word into the accumulator. -/
lemma splitWsAux_through_word :
    ∀ w rest acc : List Char, (∀ c ∈ w, isWsChar c = false) →
      splitWsAux (w ++ rest) acc = splitWsAux rest (w.reverse ++ acc) := by
  intro w
  induction w with
  | nil => intro rest acc _; simp
  | cons c cs ih =>
    intro rest acc h
    have hc : isWsChar c = false := h c (List.mem_cons_self c cs)
    rw [List.cons_append, splitWsAux, if_neg (by simp [hc])]
    rw [ih rest (c :: acc) (fun d hd => h d (List.mem_cons_of_mem c hd))]
    simp

/-- `splitWsAux` flushes the accumulator at a whitespace character. -/
lemma splitWsAux_ws_head (c : Char) (hc : isWsChar c = true)
    (rest acc : List Char) :
    splitWsAux (c :: rest) acc =
      if acc.isEmpty then splitWsAux rest []
      else acc.reverse :: splitWsAux rest [] := by
  rw [splitWsAux, if_pos hc]

/-- `joinWords` on a cons with a non-empty tail. -/
lemma joinWords_cons (w : String) (ws : List String) (h : ws ≠ []) :
    joinWords (w :: ws) = w ++ " " ++ joinWords ws := by
  cases ws with
  | nil => exact absurd rfl h
  | cons w' ws' => rfl

/-- Splitting the single-space join of good words recovers the words. -/
lemma pySplit_joinWords :
    ∀ ws : List String, (∀ w ∈ ws, goodWord w) → ws ≠ [] →
      pySplit (joinWords ws) = ws := by
  intro ws
  induction ws with
  | nil => intro _ h; exact absurd rfl h
  | cons w ws' ih =>
    intro hw _
    have hgw : goodWord w := hw w (List.mem_cons_self _ _)
    cases ws' with
    | nil =>
      show pySplit w = [w]
      unfold pySplit
      rw [show w.data = w.data ++ [] from (List.append_nil _).symm,
        splitWsAux_through_word w.data [] [] hgw.2, splitWsAux]
      rw [if_neg (by simp [hgw.1])]
      simp
    | cons w2 ws2 =>
      rw [joinWords_cons w (w2 :: ws2) (by simp)]
      unfold pySplit
      have hdata : (w ++ " " ++ joinWords (w2 :: ws2)).data =
          w.data ++ (' ' :: (joinWords (w2 :: ws2)).data) := by
        rw [String.data_append, String.data_append]
        simp
      rw [hdata, splitWsAux_through_word w.data _ [] hgw.2]
      rw [splitWsAux_ws_head ' ' (by decide)]
      rw [if_neg (by simp [hgw.1])]
      have ihr := ih (fun x hx => hw x (List.mem_cons_of_mem _ hx)) (by simp)
      unfold pySplit at ihr
      rw [List.map_cons]
      rw [ihr]
      simp

/-- `dropWhile` is the identity when the head exists and fails the
predicate. -/
lemma dropWhile_id_of_head (l : List Char)
    (h : ∃ c t, l = c :: t ∧ isWsChar c = false) :
    l.dropWhile isWsChar = l := by
  obtain ⟨c, t, rfl, hc⟩ := h
  rw [List.dropWhile_cons, if_neg (by simp [hc])]

/-- `strip` is the identity on a list whose first and last characters
are not whitespace. -/
lemma pyStripC_id (l : List Char)
    (hh : ∃ c t, l = c :: t ∧ isWsChar c = false)
    (hl : ∃ c t, l.reverse = c :: t ∧ isWsChar c = false) :
    pyStripC l = l := by
  unfold pyStripC
  rw [dropWhile_id_of_head l hh, dropWhile_id_of_head l.reverse hl,
    List.reverse_reverse]

/-- `strip` of a space followed by a good word is the word. -/
lemma pyStripC_space_word (wd : List Char) (hne : wd ≠ [])
    (hgood : ∀ c ∈ wd, isWsChar c = false) :
    pyStripC (' ' :: wd) = wd := by
  unfold pyStripC
  rw [List.dropWhile_cons, if_pos (by decide)]
  have hh : ∃ c t, wd = c :: t ∧ isWsChar c = false := by
    obtain ⟨c, t, hct⟩ := List.exists_cons_of_ne_nil hne
    exact ⟨c, t, hct, hgood c (hct ▸ List.mem_cons_self c t)⟩
  have hrev : ∃ c t, wd.reverse = c :: t ∧ isWsChar c = false := by
    have hne' : wd.reverse ≠ [] := by simp [hne]
    obtain ⟨c, t, hct⟩ := List.exists_cons_of_ne_nil hne'
    refine ⟨c, t, hct, hgood c ?_⟩
    rw [← List.mem_reverse, hct]
    exact List.mem_cons_self c t
  rw [dropWhile_id_of_head wd hh, dropWhile_id_of_head wd.reverse hrev,
    List.reverse_reverse]

/-- `pyStrip` of `"" ++ " " ++ word` for a good word is the word. -/
lemma pyStrip_space_word (w : String) (hw : goodWord w) :
    pyStrip ("" ++ " " ++ w) = w := by
  unfold pyStrip
  have hdata : ("" ++ " " ++ w).data = ' ' :: w.data := by
    rw [String.data_append, String.data_append]
    rfl
  rw [hdata, pyStripC_space_word w.data hw.1 hw.2]

/-- The join of a non-empty list of good words starts and ends with a
non-whitespace character. -/
lemma joinWords_ends :
    ∀ ws : List String, (∀ w ∈ ws, goodWord w) → ws ≠ [] →
      (∃ c t, (joinWords ws).data = c :: t ∧ isWsChar c = false) ∧
      (∃ c t, (joinWords ws).data.reverse = c :: t ∧ isWsChar c = false) := by
  intro ws
  induction ws with
  | nil => intro _ h; exact absurd rfl h
  | cons w ws' ih =>
    intro hw _
    have hgw : goodWord w := hw w (List.mem_cons_self _ _)
    cases ws' with
    | nil =>
      constructor
      · obtain ⟨c, t, hct⟩ := List.exists_cons_of_ne_nil hgw.1
        exact ⟨c, t, hct, hgw.2 c (hct ▸ List.mem_cons_self c t)⟩
      · have hne' : (joinWords [w]).data.reverse ≠ [] := by
          show w.data.reverse ≠ []
          simp [hgw.1]
        obtain ⟨c, t, hct⟩ := List.exists_cons_of_ne_nil hne'
        refine ⟨c, t, hct, hgw.2 c ?_⟩
        have : c ∈ (joinWords [w]).data.reverse := hct ▸ List.mem_cons_self c t
        rw [List.mem_reverse] at this
        exact this
    | cons w2 ws2 =>
      have ihr := ih (fun x hx => hw x (List.mem_cons_of_mem _ hx)) (by simp)
      have hdata : (joinWords (w :: w2 :: ws2)).data =
          w.data ++ (' ' :: (joinWords (w2 :: ws2)).data) := by
        rw [joinWords_cons w (w2 :: ws2) (by simp), String.data_append,
          String.data_append]
        simp
      constructor
      · obtain ⟨c, t, hct⟩ := List.exists_cons_of_ne_nil hgw.1
        refine ⟨c, t ++ (' ' :: (joinWords (w2 :: ws2)).data), ?_,
          hgw.2 c (hct ▸ List.mem_cons_self c t)⟩
        rw [hdata, hct, List.cons_append]
      · obtain ⟨c, t, hct, hcws⟩ := ihr.2
        refine ⟨c, t ++ (' ' :: w.data.reverse), ?_, hcws⟩
        rw [hdata, List.reverse_append, List.reverse_cons, hct]
        simp

/-- The join of a non-empty list of good words is non-empty. -/
lemma joinWords_ne_empty (ws : List String)
    (hw : ∀ w ∈ ws, goodWord w) (hne : ws ≠ []) :
    joinWords ws ≠ "" := by
  obtain ⟨c, t, hct, _⟩ := (joinWords_ends ws hw hne).1
  intro h0
  rw [h0] at hct
  cases hct

/-- Appending one word to a single-space join. -/
lemma joinWords_append_one :
    ∀ (chunk : List String) (w : String), chunk ≠ [] →
      joinWords chunk ++ " " ++ w = joinWords (chunk ++ [w]) := by
  intro chunk
  induction chunk with
  | nil => intro w h; exact absurd rfl h
  | cons x rest ih =>
    intro w _
    cases rest with
    | nil => rfl
    | cons y rest' =>
      rw [joinWords_cons x (y :: rest') (by simp), List.cons_append,
        joinWords_cons x ((y :: rest') ++ [w]) (by simp),
        ← ih w (by simp)]
      simp [String.append_assoc]

/-- `pyStrip` is the identity on the join of good words. -/
lemma pyStrip_joinWords (ws : List String)
    (hw : ∀ w ∈ ws, goodWord w) (hne : ws ≠ []) :
    pyStrip (joinWords ws) = joinWords ws := by
  unfold pyStrip
  have hends := joinWords_ends ws hw hne
  rw [pyStripC_id _ hends.1 hends.2]

/-- Folding word extraction distributes over the initial accumulator. -/
lemma foldr_words_init (init : List String) :
    ∀ lines : List String,
      lines.foldr (fun l acc => pySplit l ++ acc) init =
        wordsConcat lines ++ init := by
  intro lines
  induction lines with
  | nil => simp [wordsConcat]
  | cons l rest ih =>
    rw [List.foldr_cons, ih]
    unfold wordsConcat
    rw [List.foldr_cons]
    simp

/-- Words of `lines ++ [l]`. -/
lemma wordsConcat_append_one (lines : List String) (l : String) :
    wordsConcat (lines ++ [l]) = wordsConcat lines ++ pySplit l := by
  unfold wordsConcat
  rw [List.foldr_append, List.foldr_cons, List.foldr_nil]
  rw [foldr_words_init]
  simp [wordsConcat]

/-- The running line of the wrap loop: either empty with an empty chunk,
or the single-space join of the non-empty chunk of good words taken so
far. -/
def chunkInv (current : String) (chunk : List String) : Prop :=
  (current = "" ∧ chunk = []) ∨
  (chunk ≠ [] ∧ (∀ w ∈ chunk, goodWord w) ∧ current = joinWords chunk)

/-- The wrap loop emits exactly the words it is fed: the words of the
produced lines are the already-emitted words, then the running chunk,
then the remaining words. -/
lemma wrapLoop_words (sw : String → ℚ) (maxW : ℚ) :
    ∀ (ws lines chunk : List String) (current : String),
      (∀ w ∈ ws, goodWord w) → chunkInv current chunk →
      wordsConcat (wrapLoop sw maxW ws lines current) =
        wordsConcat lines ++ chunk ++ ws := by
  intro ws
  induction ws with
  | nil =>
    intro lines chunk current _ hinv
    rw [wrapLoop]
    rcases hinv with ⟨hc, hch⟩ | ⟨hne, hgood, hj⟩
    · subst hc
      subst hch
      rw [if_neg (by simp)]
      simp
    · have hne' : current ≠ "" := hj ▸ joinWords_ne_empty chunk hgood hne
      rw [if_pos hne', wordsConcat_append_one, hj,
        pySplit_joinWords chunk hgood hne]
      simp
  | cons w ws' ih =>
    intro lines chunk current hws hinv
    have hgw : goodWord w := hws w (List.mem_cons_self _ _)
    have hws' : ∀ x ∈ ws', goodWord x :=
      fun x hx => hws x (List.mem_cons_of_mem _ hx)
    rw [wrapLoop]
    rcases hinv with ⟨hc, hch⟩ | ⟨hne, hgood, hj⟩
    · subst hc
      subst hch
      rw [pyStrip_space_word w hgw]
      by_cases hle : sw w ≤ maxW
      · rw [if_pos hle]
        have := ih lines [w] w hws'
          (Or.inr ⟨by simp, by simpa using hgw, rfl⟩)
        rw [this]
        simp
      · rw [if_neg hle, if_neg (by simp)]
        have := ih lines [w] w hws'
          (Or.inr ⟨by simp, by simpa using hgw, rfl⟩)
        rw [this]
        simp
    · have hgood' : ∀ x ∈ chunk ++ [w], goodWord x := by
        intro x hx
        rcases List.mem_append.mp hx with hx' | hx'
        · exact hgood x hx'
        · rcases List.mem_singleton.mp hx' with rfl
          exact hgw
      have hjoin : current ++ " " ++ w = joinWords (chunk ++ [w]) := by
        rw [hj]
        exact joinWords_append_one chunk w hne
      have htest : pyStrip (current ++ " " ++ w) = current ++ " " ++ w := by
        rw [hjoin]
        exact pyStrip_joinWords _ hgood' (by simp)
      rw [htest]
      have hne' : current ≠ "" := hj ▸ joinWords_ne_empty chunk hgood hne
      by_cases hle : sw (current ++ " " ++ w) ≤ maxW
      · rw [if_pos hle]
        have := ih lines (chunk ++ [w]) (current ++ " " ++ w) hws'
          (Or.inr ⟨by simp, hgood', hjoin⟩)
        rw [this]
        simp
      · rw [if_neg hle, if_pos hne']
        have := ih (lines ++ [current]) [w] w hws'
          (Or.inr ⟨by simp, by simpa using hgw, rfl⟩)
        rw [this, wordsConcat_append_one, hj,
          pySplit_joinWords chunk hgood hne]
        simp

/-- `splitWsAux` emits at least one word when some input character is
non-whitespace or the accumulator is non-empty. -/
lemma splitWsAux_ne_nil :
    ∀ l acc : List Char,
      ((∃ c ∈ l, isWsChar c = false) ∨ acc ≠ []) →
      splitWsAux l acc ≠ [] := by
  intro l
  induction l with
  | nil =>
    intro acc h
    rcases h with ⟨c, hc, _⟩ | hacc
    · cases hc
    · rw [splitWsAux, if_neg (by simpa using hacc)]
      simp
  | cons c cs ih =>
    intro acc h
    rw [splitWsAux]
    by_cases hws : isWsChar c = true
    · rw [if_pos hws]
      by_cases hemp : acc.isEmpty
      · rw [if_pos hemp]
        refine ih [] (Or.inl ?_)
        rcases h with ⟨d, hd, hdws⟩ | hacc
        · rcases List.mem_cons.mp hd with rfl | hd'
          · rw [hws] at hdws
            cases hdws
          · exact ⟨d, hd', hdws⟩
        · rw [List.isEmpty_iff] at hemp
          exact absurd hemp hacc
      · rw [if_neg hemp]
        simp
    · rw [if_neg hws]
      exact ih (c :: acc) (Or.inr (by simp))

/-- A text with a non-whitespace character splits into at least one
word. -/
lemma pySplit_ne_nil (text : String)
    (h : ∃ c ∈ text.data, isWsChar c = false) : pySplit text ≠ [] := by
  unfold pySplit
  simpa using splitWsAux_ne_nil text.data [] (Or.inl h)

/-- Every line the wrap loop emits is within the width bound or is a
single whitespace-free word. -/
lemma wrapLoop_width_inv (sw : String → ℚ) (maxW : ℚ) :
    ∀ (ws lines : List String) (current : String),
      (∀ w ∈ ws, goodWord w) →
      (∀ l ∈ lines, sw l ≤ maxW ∨ ∀ c ∈ l.data, isWsChar c = false) →
      (current = "" ∨ sw current ≤ maxW ∨
        ∀ c ∈ current.data, isWsChar c = false) →
      ∀ l ∈ wrapLoop sw maxW ws lines current,
        sw l ≤ maxW ∨ ∀ c ∈ l.data, isWsChar c = false := by
  intro ws
  induction ws with
  | nil =>
    intro lines current _ hlines hcur l hl
    rw [wrapLoop] at hl
    by_cases hne : current ≠ ""
    · rw [if_pos hne] at hl
      rcases List.mem_append.mp hl with hl' | hl'
      · exact hlines l hl'
      · rcases List.mem_singleton.mp hl' with rfl
        rcases hcur with h0 | h0
        · exact absurd h0 hne
        · exact h0
    · rw [if_neg hne] at hl
      exact hlines l hl
  | cons w ws' ih =>
    intro lines current hws hlines hcur l hl
    have hgw : goodWord w := hws w (List.mem_cons_self _ _)
    have hws' : ∀ x ∈ ws', goodWord x :=
      fun x hx => hws x (List.mem_cons_of_mem _ hx)
    rw [wrapLoop] at hl
    by_cases hle : sw (pyStrip (current ++ " " ++ w)) ≤ maxW
    · rw [if_pos hle] at hl
      exact ih lines _ hws' hlines (Or.inr (Or.inl hle)) l hl
    · rw [if_neg hle] at hl
      by_cases hne : current ≠ ""
      · rw [if_pos hne] at hl
        refine ih (lines ++ [current]) w hws' ?_ (Or.inr (Or.inr hgw.2))
          l hl
        intro x hx
        rcases List.mem_append.mp hx with hx' | hx'
        · exact hlines x hx'
        · rcases List.mem_singleton.mp hx' with rfl
          rcases hcur with h0 | h0
          · exact absurd h0 hne
          · exact h0
      · rw [if_neg hne] at hl
        exact ih lines w hws' hlines (Or.inr (Or.inr hgw.2)) l hl

/-- C5, amended: every line `_wrap_text` returns either has rendered
width at most the maximum width, or contains no whitespace at all — it
is a single word whose own width exceeds the limit, which the greedy
word-wrapper cannot split. -/
theorem wrap_text_line_bound_amended (sw : String → ℚ) (text : String)
    (max_width : ℚ) :
    ∀ line ∈ wrap_text sw text max_width,
      sw line ≤ max_width ∨ ∀ c ∈ line.data, isWsChar c = false := by
  intro line hline
  unfold wrap_text at hline
  by_cases ht : text = ""
  · rw [if_pos ht] at hline
    rcases List.mem_singleton.mp hline with rfl
    exact Or.inr (by decide)
  · rw [if_neg ht] at hline
    by_cases hr : (wrapLoop sw max_width (pySplit text) [] "").isEmpty
    · rw [if_pos hr] at hline
      rcases List.mem_singleton.mp hline with rfl
      exact Or.inr (by decide)
    · rw [if_neg hr] at hline
      exact wrapLoop_width_inv sw max_width (pySplit text) [] ""
        (pySplit_good text) (by intro x hx; cases hx) (Or.inl rfl)
        line hline

/-- Witness for the amended C5: the over-wide single word "abcd" is
returned as a line and satisfies the single-word disjunct. -/
theorem wrap_text_line_bound_amended_witness :
    swLen "abcd" ≤ 2 ∨ ∀ c ∈ ("abcd" : String).data, isWsChar c = false :=
  wrap_text_line_bound_amended swLen "abcd" 2 "abcd" (by decide)

/-- C6: `_wrap_text` never drops characters — for any input with a
non-whitespace character, the words of the returned lines are exactly
the split words of the input, so joining them with single spaces
reproduces the whitespace-normalized text; and an empty (falsy) input
yields exactly the sentinel line list `["N/A"]`. -/
theorem wrap_text_words_preserved (sw : String → ℚ) (text : String)
    (max_width : ℚ) :
    (text = "" → wrap_text sw text max_width = ["N/A"]) ∧
    ((∃ c ∈ text.data, isWsChar c = false) →
      wordsConcat (wrap_text sw text max_width) = pySplit text ∧
      joinWords (wordsConcat (wrap_text sw text max_width)) =
        joinWords (pySplit text)) := by
  constructor
  · intro h
    unfold wrap_text
    rw [if_pos h]
  · intro h
    have ht : text ≠ "" := by
      intro h0
      subst h0
      rcases h with ⟨c, hc, _⟩
      cases hc
    have hwords := wrapLoop_words sw max_width (pySplit text) [] [] ""
      (pySplit_good text) (Or.inl ⟨rfl, rfl⟩)
    have hne : wrapLoop sw max_width (pySplit text) [] "" ≠ [] := by
      intro h0
      rw [h0] at hwords
      have : pySplit text = [] := by simpa [wordsConcat] using hwords.symm
      exact pySplit_ne_nil text h this
    have hres : wrap_text sw text max_width =
        wrapLoop sw max_width (pySplit text) [] "" := by
      unfold wrap_text
      rw [if_neg ht, if_neg (by simpa using hne)]
    refine ⟨?_, ?_⟩
    · rw [hres, hwords]
      simp [wordsConcat]
    · rw [hres, hwords]
      simp [wordsConcat]

/-- Witness for C6 on the concrete text "  hola   mundo  ": the wrapped
words are exactly ["hola", "mundo"] and their join is the normalized
text. -/
theorem wrap_text_words_preserved_witness :
    wordsConcat (wrap_text swLen "  hola   mundo  " 20) =
      pySplit "  hola   mundo  " ∧
    joinWords (wordsConcat (wrap_text swLen "  hola   mundo  " 20)) =
      joinWords (pySplit "  hola   mundo  ") :=
  (wrap_text_words_preserved swLen "  hola   mundo  " 20).2 (by decide)

/-- C4: `_is_blank_pdf_page` holds exactly when the extracted text strips
to empty AND the raw content stream is absent or strips to nothing after
removing the bytes space/tab/CR/NL; and the assembly loop copies from a
referenced file precisely the pages that fail this blank test (pages of
missing files contribute nothing). -/
theorem blank_page_filter :
    (∀ p : PdfPage, is_blank_pdf_page p = true ↔
      (pyStrip p.text = "" ∧
        (p.contents = none ∨ (pageRawData p).filter keptByte = []))) ∧
    (∀ (fsys : FileSystem) (f : String),
      fileContribution fsys f =
        (pagesOf fsys f).filter (fun p => !is_blank_pdf_page p)) := by
  constructor
  · intro p
    unfold is_blank_pdf_page
    by_cases hs : pyStrip p.text ≠ ""
    · rw [if_pos hs]
      simp [hs]
    · rw [if_neg hs]
      have hs' : pyStrip p.text = "" := not_ne_iff.mp hs
      cases hc : p.contents with
      | none => simp [pageRawData, hc, hs']
      | some c =>
        cases c with
        | arr items =>
          cases items with
          | nil => simp [pageRawData, hc, hs', contentsData]
          | cons i its =>
            simp [pageRawData, hc, hs', contentsData, List.isEmpty_iff]
        | single d =>
          simp [pageRawData, hc, hs', contentsData, List.isEmpty_iff]
  · intro fsys f
    unfold fileContribution pagesOf
    cases hf : fsys f with
    | none => rfl
    | some ps => rfl

/-- The splice while-loop stops when no leading section matches the
current page index. -/
lemma consumeSections_no_match (fsys : FileSystem) (idx : Nat) :
    ∀ S : List AttachmentSection, (∀ s ∈ S, ¬ s.cover_end = idx) →
      consumeSections fsys idx S = ([], S) := by
  intro S h
  cases S with
  | nil => rfl
  | cons s rest =>
    rw [consumeSections, if_neg (h s (List.mem_cons_self _ _))]

/-- Under strictly increasing cover ends bounded below by the page
index, the while loop consumes exactly the sections due at that index. -/
lemma consumeSections_spec (fsys : FileSystem) (idx : Nat) :
    ∀ S : List AttachmentSection,
      S.Pairwise (fun a b => a.cover_end < b.cover_end) →
      (∀ s ∈ S, idx ≤ s.cover_end) →
      consumeSections fsys idx S =
        (((S.filter (fun s => s.cover_end = idx)).map
            (sectionContribution fsys)).flatten,
         S.filter (fun s => ¬ s.cover_end = idx)) := by
  intro S hpw hlb
  cases S with
  | nil => rfl
  | cons s rest =>
    have hrest_gt : ∀ r ∈ rest, s.cover_end < r.cover_end :=
      (List.pairwise_cons.mp hpw).1
    by_cases heq : s.cover_end = idx
    · have hnom : ∀ r ∈ rest, ¬ r.cover_end = idx := by
        intro r hr hc
        have := hrest_gt r hr
        omega
      have hfr : rest.filter (fun x => x.cover_end = idx) = [] := by
        simp only [List.filter_eq_nil_iff, decide_eq_true_eq]
        exact hnom
      have hfr2 : rest.filter (fun x => ¬ x.cover_end = idx) = rest := by
        simp only [List.filter_eq_self, decide_eq_true_eq]
        exact hnom
      have hfc1 : (s :: rest).filter (fun x => x.cover_end = idx) = [s] := by
        rw [List.filter_cons, if_pos (by simpa using heq), hfr]
      have hfc2 : (s :: rest).filter (fun x => ¬ x.cover_end = idx) =
          rest := by
        rw [List.filter_cons, if_neg (by simpa using heq)]
        exact hfr2
      rw [consumeSections, if_pos heq,
        consumeSections_no_match fsys idx rest hnom, hfc1, hfc2]
      simp
    · have hgt : ∀ r ∈ s :: rest, ¬ r.cover_end = idx := by
        intro r hr hc
        rcases List.mem_cons.mp hr with rfl | hr'
        · exact heq hc
        · have h1 := hrest_gt r hr'
          have h2 := hlb s (List.mem_cons_self _ _)
          omega
      have hf1 : (s :: rest).filter (fun x => x.cover_end = idx) = [] := by
        simp only [List.filter_eq_nil_iff, decide_eq_true_eq]
        exact hgt
      have hf2 : (s :: rest).filter (fun x => ¬ x.cover_end = idx) =
          s :: rest := by
        simp only [List.filter_eq_self, decide_eq_true_eq]
        exact hgt
      rw [consumeSections_no_match fsys idx _ hgt, hf1, hf2]
      simp

/-- Sections whose cover end is a stale (smaller) index never match
again, so filtering them out does not change the splice shape. -/
lemma spliceSpecAux_filter_stale (fsys : FileSystem) (idx : Nat) :
    ∀ (ps : List PdfPage) (j : Nat) (S : List AttachmentSection),
      idx < j →
      spliceSpecAux fsys ps j
          (S.filter (fun s => ¬ s.cover_end = idx)) =
        spliceSpecAux fsys ps j S := by
  intro ps
  induction ps with
  | nil => intro j S _; rfl
  | cons p ps' ih =>
    intro j S hj
    rw [spliceSpecAux, spliceSpecAux]
    have hfilter :
        (S.filter (fun s => ¬ s.cover_end = idx)).filter
            (fun s => s.cover_end = j) =
          S.filter (fun s => s.cover_end = j) := by
      rw [List.filter_filter]
      refine List.filter_congr ?_
      intro x _
      by_cases hx : x.cover_end = j
      · simp [hx]
        omega
      · simp [hx]
    rw [hfilter, ih (j + 1) S (by omega)]

/-- The page walk of `_append_supporting_pdfs` realises the spec splice
shape and consumes every section, provided cover ends are strictly
increasing and within the base page range. -/
lemma appendWalk_spec (fsys : FileSystem) :
    ∀ (basePages : List PdfPage) (idx : Nat)
      (S : List AttachmentSection),
      S.Pairwise (fun a b => a.cover_end < b.cover_end) →
      (∀ s ∈ S, idx ≤ s.cover_end ∧ s.cover_end < idx + basePages.length) →
      appendWalk fsys basePages idx S =
        (spliceSpecAux fsys basePages idx S, []) := by
  intro basePages
  induction basePages with
  | nil =>
    intro idx S _ hb
    have hS : S = [] := by
      cases S with
      | nil => rfl
      | cons s rest =>
        have := hb s (List.mem_cons_self _ _)
        simp at this
        omega
    subst hS
    rfl
  | cons p ps ih =>
    intro idx S hpw hb
    have hcs := consumeSections_spec fsys idx S hpw (fun s hs => (hb s hs).1)
    have hpw' : (S.filter (fun s => ¬ s.cover_end = idx)).Pairwise
        (fun a b => a.cover_end < b.cover_end) :=
      List.Pairwise.sublist (List.filter_sublist S) hpw
    have hb' : ∀ s ∈ S.filter (fun s => ¬ s.cover_end = idx),
        idx + 1 ≤ s.cover_end ∧ s.cover_end < (idx + 1) + ps.length := by
      intro s hs
      have hmem := List.mem_of_mem_filter hs
      have hbs := hb s hmem
      have hne : ¬ s.cover_end = idx := by
        have := List.of_mem_filter hs
        simpa using this
      constructor
      · omega
      · have := hbs.2
        simp only [List.length_cons] at this
        omega
    have hrec := ih (idx + 1) (S.filter (fun s => ¬ s.cover_end = idx))
      hpw' hb'
    rw [appendWalk]
    rw [hcs]
    simp only []
    rw [hrec]
    rw [spliceSpecAux_filter_stale fsys idx ps (idx + 1) S (by omega)]
    rw [spliceSpecAux]

/-- Structure of the sections the attachment phase records: one section
per non-empty bucket in source order, with contiguous strictly increasing
page spans whose last page is the recorded `cover_end`. -/
lemma attachPhaseGo_spec :
    ∀ (buckets : List Bucket) (current : Nat),
      current ≤ (attachPhaseGo buckets current).2 ∧
      List.Forall₂ (fun (s : AttachmentSection) (b : Bucket) =>
          s.files = b.files ∧ s.cover_end = s.cover_start + b.extra)
        (attachPhaseGo buckets current).1
        (buckets.filter (fun b => !b.files.isEmpty)) ∧
      (∀ s ∈ (attachPhaseGo buckets current).1,
        current + 1 ≤ s.cover_start ∧ s.cover_start ≤ s.cover_end ∧
          s.cover_end ≤ (attachPhaseGo buckets current).2) ∧
      (attachPhaseGo buckets current).1.Pairwise
        (fun a b => a.cover_end < b.cover_end) := by
  intro buckets
  induction buckets with
  | nil =>
    intro current
    refine ⟨Nat.le_refl _, List.Forall₂.nil, ?_, List.Pairwise.nil⟩
    intro s hs
    cases hs
  | cons b bs ih =>
    intro current
    by_cases hbe : b.files.isEmpty
    · have hred : attachPhaseGo (b :: bs) current = attachPhaseGo bs current := by
        rw [attachPhaseGo, if_pos hbe]
      have hfil : (b :: bs).filter (fun x => !x.files.isEmpty) =
          bs.filter (fun x => !x.files.isEmpty) := by
        rw [List.filter_cons, if_neg (by simp [hbe])]
      rw [hred, hfil]
      exact ih current
    · have hred : attachPhaseGo (b :: bs) current =
          (⟨b.files, current + 1 + b.extra, current + 1⟩ ::
            (attachPhaseGo bs (current + 1 + b.extra)).1,
           (attachPhaseGo bs (current + 1 + b.extra)).2) := by
        rw [attachPhaseGo, if_neg hbe]
      have hfil : (b :: bs).filter (fun x => !x.files.isEmpty) =
          b :: bs.filter (fun x => !x.files.isEmpty) := by
        rw [List.filter_cons, if_pos (by simp [hbe])]
      have ihb := ih (current + 1 + b.extra)
      rw [hred, hfil]
      refine ⟨?_, ?_, ?_, ?_⟩
      · exact Nat.le_trans (by omega) ihb.1
      · exact List.Forall₂.cons ⟨rfl, rfl⟩ ihb.2.1
      · intro s hs
        rcases List.mem_cons.mp hs with rfl | hs'
        · refine ⟨?_, ?_, ?_⟩
          · show current + 1 ≤ current + 1
            exact Nat.le_refl _
          · show current + 1 ≤ current + 1 + b.extra
            omega
          · show current + 1 + b.extra ≤
              (attachPhaseGo bs (current + 1 + b.extra)).2
            exact ihb.1
        · have := ihb.2.2.1 s hs'
          exact ⟨by omega, this.2.1, this.2.2⟩
      · rw [List.pairwise_cons]
        refine ⟨?_, ihb.2.2.2⟩
        intro s hs
        have := ihb.2.2.1 s hs
        show current + 1 + b.extra < s.cover_end
        omega

/-- C1: the attachment phase of `generate` records one
`AttachmentCoverSection` per non-empty bucket in the fixed order
calibration → audiograms → spirometry → attendance; each section's
`cover_end` is the 1-based number of the last page drawn for its cover
announcement (`cover_start + extra`, within the base document); the
cover ends are strictly increasing; and on a base document of exactly
that many pages, Assembly consumes every section (none left over) and
produces exactly each base page followed immediately by the
contributions of the sections whose `cover_end` equals its 1-based
index, with the trailing protocol pages at the very end. -/
theorem attachment_cover_splice (start_page : Nat)
    (calibration audiograms spirometry attendance : Bucket)
    (fsys : FileSystem) (basePages : List PdfPage)
    (trailing_pdfs : List String)
    (hlen : basePages.length =
      (attachPhase start_page calibration audiograms spirometry
        attendance).2) :
    List.Forall₂ (fun (s : AttachmentSection) (b : Bucket) =>
        s.files = b.files ∧ s.cover_end = s.cover_start + b.extra)
      (attachPhase start_page calibration audiograms spirometry
        attendance).1
      ([calibration, audiograms, spirometry, attendance].filter
        (fun b => !b.files.isEmpty)) ∧
    (∀ s ∈ (attachPhase start_page calibration audiograms spirometry
        attendance).1,
      start_page + 1 ≤ s.cover_start ∧ s.cover_start ≤ s.cover_end ∧
        s.cover_end ≤ basePages.length) ∧
    (attachPhase start_page calibration audiograms spirometry
        attendance).1.Pairwise (fun a b => a.cover_end < b.cover_end) ∧
    (appendWalk fsys basePages 1
      (attachPhase start_page calibration audiograms spirometry
        attendance).1).2 = [] ∧
    append_supporting_pdfs fsys basePages
        (attachPhase start_page calibration audiograms spirometry
          attendance).1 trailing_pdfs =
      spliceSpec fsys basePages
          (attachPhase start_page calibration audiograms spirometry
            attendance).1 ++
        ((trailing_pdfs.filter (fun p => p ≠ "")).foldr
          (fun f acc => fileContribution fsys f ++ acc) []) := by
  have hgo := attachPhaseGo_spec
    [calibration, audiograms, spirometry, attendance] start_page
  have hbounds : ∀ s ∈ (attachPhase start_page calibration audiograms
      spirometry attendance).1,
      start_page + 1 ≤ s.cover_start ∧ s.cover_start ≤ s.cover_end ∧
        s.cover_end ≤ basePages.length := by
    intro s hs
    have := hgo.2.2.1 s hs
    exact ⟨this.1, this.2.1, by rw [hlen]; exact this.2.2⟩
  have hwalkb : ∀ s ∈ (attachPhase start_page calibration audiograms
      spirometry attendance).1,
      1 ≤ s.cover_end ∧ s.cover_end < 1 + basePages.length := by
    intro s hs
    have := hbounds s hs
    omega
  have hwalk := appendWalk_spec fsys basePages 1
    (attachPhase start_page calibration audiograms spirometry
      attendance).1 hgo.2.2.2 hwalkb
  refine ⟨hgo.2.1, hbounds, hgo.2.2.2, ?_, ?_⟩
  · rw [hwalk]
  · unfold append_supporting_pdfs
    rw [hwalk]
    rfl

/-- Witness for C1: a concrete run with one calibration file, one
attendance file and an empty audiogram/spirometry bucket. -/
theorem attachment_cover_splice_witness :
    List.Forall₂ (fun (s : AttachmentSection) (b : Bucket) =>
        s.files = b.files ∧ s.cover_end = s.cover_start + b.extra)
      (attachPhase 3 ⟨["c.pdf"], 1⟩ ⟨[], 0⟩ ⟨[], 0⟩ ⟨["l.pdf"], 0⟩).1
      ([(⟨["c.pdf"], 1⟩ : Bucket), ⟨[], 0⟩, ⟨[], 0⟩,
        ⟨["l.pdf"], 0⟩].filter (fun b => !b.files.isEmpty)) ∧
    (∀ s ∈ (attachPhase 3 ⟨["c.pdf"], 1⟩ ⟨[], 0⟩ ⟨[], 0⟩
        ⟨["l.pdf"], 0⟩).1,
      3 + 1 ≤ s.cover_start ∧ s.cover_start ≤ s.cover_end ∧
        s.cover_end ≤ (List.replicate 6 (⟨"pg", none⟩ : PdfPage)).length) ∧
    (attachPhase 3 ⟨["c.pdf"], 1⟩ ⟨[], 0⟩ ⟨[], 0⟩
        ⟨["l.pdf"], 0⟩).1.Pairwise (fun a b => a.cover_end < b.cover_end) ∧
    (appendWalk fsTwoOfThree (List.replicate 6 (⟨"pg", none⟩ : PdfPage)) 1
      (attachPhase 3 ⟨["c.pdf"], 1⟩ ⟨[], 0⟩ ⟨[], 0⟩
        ⟨["l.pdf"], 0⟩).1).2 = [] ∧
    append_supporting_pdfs fsTwoOfThree
        (List.replicate 6 (⟨"pg", none⟩ : PdfPage))
        (attachPhase 3 ⟨["c.pdf"], 1⟩ ⟨[], 0⟩ ⟨[], 0⟩
          ⟨["l.pdf"], 0⟩).1 ["p.pdf"] =
      spliceSpec fsTwoOfThree (List.replicate 6 (⟨"pg", none⟩ : PdfPage))
          (attachPhase 3 ⟨["c.pdf"], 1⟩ ⟨[], 0⟩ ⟨[], 0⟩
            ⟨["l.pdf"], 0⟩).1 ++
        ((["p.pdf"].filter (fun p => p ≠ "")).foldr
          (fun f acc => fileContribution fsTwoOfThree f ++ acc) []) :=
  attachment_cover_splice 3 ⟨["c.pdf"], 1⟩ ⟨[], 0⟩ ⟨[], 0⟩ ⟨["l.pdf"], 0⟩
    fsTwoOfThree (List.replicate 6 (⟨"pg", none⟩ : PdfPage)) ["p.pdf"]
    (by decide)
